import Mathlib

/-!
# Verification development for the zpack compression library

Shallow embedding of the zpack compression toolkit: the compress-bound
estimator, the error taxonomy, the RLE codec, and the container-format
codec, together with proofs of the round-trip, bound-soundness and
error-handling properties stated in the design document.

Bytes are modelled as natural numbers (the values that matter are < 256),
byte buffers as `List Nat`, `size_t` arithmetic as arithmetic modulo
`2 ^ 64`, and fallible C entry points (which return a negative status and
fill a caller buffer) as functions into `Except Int (List Nat)` — an
`Except.error` result carries no output bytes, modelling "nothing written".

The repository ships only the public header `include/zpack.h` (constants,
macros and prototypes); the function bodies are not part of the sources.
Constants and the `ZPACK_COMPRESS_BOUND` macro below are transcribed from
the header; every function body is modelled from the design document and
says so in its doc comment.
-/

namespace Zpack

/-- Decidable equality for `Except`, so that concrete runs of the fallible
entry points can be checked by `decide`. -/
instance {ε α : Type} [DecidableEq ε] [DecidableEq α] :
    DecidableEq (Except ε α) := fun a b =>
  match a, b with
  | Except.ok x, Except.ok y =>
    if h : x = y then Decidable.isTrue (by rw [h])
    else Decidable.isFalse (by intro hh; cases hh; exact h rfl)
  | Except.error x, Except.error y =>
    if h : x = y then Decidable.isTrue (by rw [h])
    else Decidable.isFalse (by intro hh; cases hh; exact h rfl)
  | Except.ok _, Except.error _ => Decidable.isFalse (by intro hh; cases hh)
  | Except.error _, Except.ok _ => Decidable.isFalse (by intro hh; cases hh)

/-! ## Constants transcribed from include/zpack.h -/

/-- Version constant `ZPACK_VERSION_MAJOR` from the header. -/
def ZPACK_VERSION_MAJOR : Nat := 0

/-- Version constant `ZPACK_VERSION_MINOR` from the header. -/
def ZPACK_VERSION_MINOR : Nat := 1

/-- Status code `ZPACK_OK` from the header. -/
def ZPACK_OK : Int := 0

/-- Error code `ZPACK_ERROR_MEMORY` from the header. -/
def ZPACK_ERROR_MEMORY : Int := -1

/-- Error code `ZPACK_ERROR_INVALID_DATA` from the header. -/
def ZPACK_ERROR_INVALID_DATA : Int := -2

/-- Error code `ZPACK_ERROR_CORRUPTED` from the header. -/
def ZPACK_ERROR_CORRUPTED : Int := -3

/-- Error code `ZPACK_ERROR_BUFFER_TOO_SMALL` from the header. -/
def ZPACK_ERROR_BUFFER_TOO_SMALL : Int := -4

/-- Error code `ZPACK_ERROR_INVALID_CONFIG` from the header. -/
def ZPACK_ERROR_INVALID_CONFIG : Int := -5

/-- Error code `ZPACK_ERROR_UNSUPPORTED_VERSION` from the header. -/
def ZPACK_ERROR_UNSUPPORTED_VERSION : Int := -6

/-- Error code `ZPACK_ERROR_CHECKSUM_MISMATCH` from the header. -/
def ZPACK_ERROR_CHECKSUM_MISMATCH : Int := -7

/-- Compression level `ZPACK_LEVEL_FAST` from the header. -/
def ZPACK_LEVEL_FAST : Nat := 1

/-- Compression level `ZPACK_LEVEL_BALANCED` from the header. -/
def ZPACK_LEVEL_BALANCED : Nat := 2

/-- Compression level `ZPACK_LEVEL_BEST` from the header. -/
def ZPACK_LEVEL_BEST : Nat := 3

/-- Modulus of `size_t` arithmetic on the 64-bit targets the header assumes. -/
def SIZE_T_MOD : Nat := 2 ^ 64

/-- The macro `ZPACK_COMPRESS_BOUND(size)`, transcribed from the header:
`((size) + ((size) / 8) + 256)` evaluated in `size_t` arithmetic. -/
def ZPACK_COMPRESS_BOUND (size : Nat) : Nat :=
  (size + size / 8 + 256) % SIZE_T_MOD

/-- Modelled from the spec: the function `zpack_compress_bound` is declared in
the header but its body is not in the sources; the spec's Bound Estimator
contract (`bound = input_size + input_size/8 + header_overhead_constant`) and
the header's own `ZPACK_COMPRESS_BOUND` macro fix it as below. -/
def zpack_compress_bound (input_size : Nat) : Nat :=
  ZPACK_COMPRESS_BOUND input_size

/-- Modelled from the spec: the body of `zpack_get_error_string` is not in the
sources; the spec's Error Registry returns a static description per code with
no side effects. -/
def zpack_get_error_string (error_code : Int) : String :=
  if error_code = ZPACK_OK then "Success"
  else if error_code = ZPACK_ERROR_MEMORY then "Memory allocation failed"
  else if error_code = ZPACK_ERROR_INVALID_DATA then "Invalid or malformed input data"
  else if error_code = ZPACK_ERROR_CORRUPTED then "Corrupted compressed data"
  else if error_code = ZPACK_ERROR_BUFFER_TOO_SMALL then "Output buffer too small"
  else if error_code = ZPACK_ERROR_INVALID_CONFIG then "Invalid configuration parameter"
  else if error_code = ZPACK_ERROR_UNSUPPORTED_VERSION then "Unsupported format version"
  else if error_code = ZPACK_ERROR_CHECKSUM_MISMATCH then "Checksum mismatch"
  else "Unknown error"

/-! ## RLE codec

Modelled from the spec (§4.3): the bodies of `zpack_rle_compress` and
`zpack_rle_decompress` are not in the sources.  The token stream is a
sequence of literal runs (count byte 1–127, high bit clear, followed by that
many literal bytes) and repeat runs (count byte with the high bit set,
encoding a run length of `count - 128 + 1` in 1–128, followed by the run
byte).  The encoder is the greedy single-pass scanner of the spec: repeat
tokens for runs of length at least 3 (capped at 128), literal accumulation
otherwise with a flush at 127 literals.  Recursion is driven by a fuel
argument equal to the remaining input length so that every definition is
structural and kernel-reducible. -/

/-- Length of the maximal prefix of `l` consisting of copies of `b`. -/
def countRun (b : Nat) : List Nat → Nat
  | [] => 0
  | c :: rest => if c = b then countRun b rest + 1 else 0

/-- Emit a pending literal run as a token: count byte then the literals.
An empty pending run emits nothing. -/
def flushLit (lit : List Nat) : List Nat :=
  if lit = [] then [] else lit.length :: lit

/-- Greedy RLE encoder loop.  `lit` is the pending literal accumulator
(invariant: at most 126 bytes); fuel bounds the remaining input length. -/
def rleAux : Nat → List Nat → List Nat → List Nat
  | _, lit, [] => flushLit lit
  | 0, lit, l => flushLit lit ++ l
  | fuel + 1, lit, b :: rest =>
    if 3 ≤ min (countRun b rest + 1) 128 then
      flushLit lit ++ (127 + min (countRun b rest + 1) 128) :: b ::
        rleAux fuel [] (rest.drop (min (countRun b rest + 1) 128 - 1))
    else if 126 ≤ lit.length then
      flushLit (lit ++ [b]) ++ rleAux fuel [] rest
    else
      rleAux fuel (lit ++ [b]) rest

/-- The RLE encoder on a whole buffer. -/
def rleEncode (input : List Nat) : List Nat :=
  rleAux input.length [] input

/-- RLE decoder loop over the token stream; fuel bounds the remaining input
length.  A truncated token (or a zero literal count, which makes no progress)
is structurally invalid and yields `none`. -/
def rleDecodeF : Nat → List Nat → Option (List Nat)
  | _, [] => some []
  | 0, _ :: _ => none
  | fuel + 1, n :: rest =>
    if 128 ≤ n then
      match rest with
      | [] => none
      | v :: rest2 =>
        (rleDecodeF fuel rest2).map (fun t => List.replicate (n - 127) v ++ t)
    else if n = 0 then none
    else if n ≤ rest.length then
      (rleDecodeF fuel (rest.drop n)).map (fun t => rest.take n ++ t)
    else none

/-- The RLE decoder on a whole token stream. -/
def rleDecode (input : List Nat) : Option (List Nat) :=
  rleDecodeF input.length input

/-- Modelled from the spec: `zpack_rle_compress` body is not in the sources.
Encodes the input and fails with `ZPACK_ERROR_BUFFER_TOO_SMALL` when the
caller's output capacity cannot hold the token stream. -/
def zpack_rle_compress (input : List Nat) (output_capacity : Nat) :
    Except Int (List Nat) :=
  let e := rleEncode input
  if output_capacity < e.length then Except.error ZPACK_ERROR_BUFFER_TOO_SMALL
  else Except.ok e

/-- Modelled from the spec: `zpack_rle_decompress` body is not in the sources.
Decodes the token stream, failing with `ZPACK_ERROR_CORRUPTED` on malformed
streams and `ZPACK_ERROR_BUFFER_TOO_SMALL` when the decoded length exceeds
the caller's capacity. -/
def zpack_rle_decompress (input : List Nat) (output_capacity : Nat) :
    Except Int (List Nat) :=
  match rleDecode input with
  | none => Except.error ZPACK_ERROR_CORRUPTED
  | some o =>
    if output_capacity < o.length then Except.error ZPACK_ERROR_BUFFER_TOO_SMALL
    else Except.ok o

/-! ## Container format

Modelled from the spec (§3, §4.4): the bodies of `zpack_compress_file` and
`zpack_decompress_file` are not in the sources.  The header is a fixed 28-byte
record: 4-byte magic, 1-byte major and minor version, 1-byte method tag,
1-byte level, 8-byte little-endian uncompressed size, 8-byte little-endian
compressed size, 4-byte little-endian checksum over the original bytes.  The
magic sentinel's concrete value and the method-tag values are likewise not in
the sources and are fixed here. -/

/-- Modelled from the spec: the format's 4-byte magic sentinel (its concrete
value is not in the sources). -/
def ZPACK_MAGIC : List Nat := [0x5A, 0x50, 0x41, 0x4B]

/-- Size in bytes of the serialized container header. -/
def HEADER_SIZE : Nat := 28

/-- Method tag for payloads produced by the external backend compressor. -/
def ZPACK_METHOD_RAW : Nat := 0

/-- Method tag for payloads produced by the native RLE codec. -/
def ZPACK_METHOD_RLE : Nat := 1

/-- Serialize `n` into `k` little-endian bytes (truncating to `k` bytes). -/
def toLE : Nat → Nat → List Nat
  | 0, _ => []
  | k + 1, n => n % 256 :: toLE k (n / 256)

/-- Read back a little-endian byte sequence as a natural number. -/
def fromLE : List Nat → Nat
  | [] => 0
  | b :: rest => b % 256 + 256 * fromLE rest

/-- Modelled from the spec: a 32-bit integrity digest over the original
uncompressed bytes (the concrete digest function is not in the sources; the
spec only requires a fixed-width deterministic digest). -/
def checksum (data : List Nat) : Nat :=
  data.foldl (fun a c => (a * 31 + c % 256 + 1) % 2 ^ 32) 0

/-- The external backend compressor, per the spec an external collaborator
exposing `compress(input, level)` and `decompress(input, expected_size)`,
each able to fail with a generic invalid-data signal (`none`). -/
structure Backend where
  compress : List Nat → Nat → Option (List Nat)
  decompress : List Nat → Nat → Option (List Nat)

/-- The identity backend: a trivial instantiation of the backend interface
used to exercise the container format on concrete inputs. -/
def idBackend : Backend :=
  { compress := fun input _ => some input
    decompress := fun input _ => some input }

/-- Method selected for a compression level: FAST routes to the RLE codec,
BALANCED and BEST to the external backend (spec §4.4 step 2). -/
def methodForLevel (level : Nat) : Nat :=
  if level = ZPACK_LEVEL_FAST then ZPACK_METHOD_RLE else ZPACK_METHOD_RAW

/-- Serialize a container header with an explicit version (general form, used
to state version-rejection properties). -/
def mkHeaderV (vmaj vmin method level usize csize ck : Nat) : List Nat :=
  ZPACK_MAGIC ++ [vmaj % 256, vmin % 256, method % 256, level % 256]
    ++ toLE 8 usize ++ toLE 8 csize ++ toLE 4 ck

/-- Serialize a container header carrying the current format version. -/
def mkHeader (method level usize csize ck : Nat) : List Nat :=
  mkHeaderV ZPACK_VERSION_MAJOR ZPACK_VERSION_MINOR method level usize csize ck

/-- Modelled from the spec: `zpack_compress` body is not in the sources; the
spec describes it as a validated pass-through to the external backend. -/
def zpack_compress (be : Backend) (input : List Nat) (output_capacity : Nat)
    (level : Nat) : Except Int (List Nat) :=
  if ¬ (level = ZPACK_LEVEL_FAST ∨ level = ZPACK_LEVEL_BALANCED ∨
        level = ZPACK_LEVEL_BEST) then
    Except.error ZPACK_ERROR_INVALID_CONFIG
  else
    match be.compress input level with
    | none => Except.error ZPACK_ERROR_INVALID_DATA
    | some c =>
      if output_capacity < c.length then Except.error ZPACK_ERROR_BUFFER_TOO_SMALL
      else Except.ok c

/-- Modelled from the spec: `zpack_compress_file` body is not in the sources.
Validates the level, selects the method (FAST routes to RLE, otherwise the
backend), encodes the payload (an empty input yields an empty payload at
every level, per the spec's empty-input scenario), computes the checksum over
the original bytes, checks the caller's capacity, and emits header followed
by payload.  An error result carries no bytes, modelling "nothing written". -/
def zpack_compress_file (be : Backend) (input : List Nat)
    (output_capacity : Nat) (level : Nat) : Except Int (List Nat) :=
  if ¬ (level = ZPACK_LEVEL_FAST ∨ level = ZPACK_LEVEL_BALANCED ∨
        level = ZPACK_LEVEL_BEST) then
    Except.error ZPACK_ERROR_INVALID_CONFIG
  else
    let payloadRes : Except Int (List Nat) :=
      if input = [] then Except.ok []
      else if level = ZPACK_LEVEL_FAST then Except.ok (rleEncode input)
      else
        match be.compress input level with
        | none => Except.error ZPACK_ERROR_INVALID_DATA
        | some c => Except.ok c
    match payloadRes with
    | Except.error e => Except.error e
    | Except.ok payload =>
      if output_capacity < HEADER_SIZE + payload.length then
        Except.error ZPACK_ERROR_BUFFER_TOO_SMALL
      else
        Except.ok (mkHeader (methodForLevel level) level input.length
          payload.length (checksum input) ++ payload)

/-- Modelled from the spec: `zpack_decompress_file` body is not in the
sources.  Follows the spec's decode pipeline: length and magic checks
(`ZPACK_ERROR_INVALID_DATA`), exact major-version check
(`ZPACK_ERROR_UNSUPPORTED_VERSION`), total-length consistency
(`ZPACK_ERROR_CORRUPTED`), capacity check (`ZPACK_ERROR_BUFFER_TOO_SMALL`),
method dispatch (RLE corruption maps to `ZPACK_ERROR_CORRUPTED`, a backend
failure or unknown method tag to `ZPACK_ERROR_INVALID_DATA`), and the
terminal checksum gate (`ZPACK_ERROR_CHECKSUM_MISMATCH`), which runs even
when the payload decoder succeeded. -/
def zpack_decompress_file (be : Backend) (input : List Nat)
    (output_capacity : Nat) : Except Int (List Nat) :=
  if input.length < HEADER_SIZE then Except.error ZPACK_ERROR_INVALID_DATA
  else if input.take 4 ≠ ZPACK_MAGIC then Except.error ZPACK_ERROR_INVALID_DATA
  else if input.getD 4 0 ≠ ZPACK_VERSION_MAJOR then
    Except.error ZPACK_ERROR_UNSUPPORTED_VERSION
  else
    let method := input.getD 6 0
    let usize := fromLE ((input.drop 8).take 8)
    let csize := fromLE ((input.drop 16).take 8)
    let ck := fromLE ((input.drop 24).take 4)
    let payload := input.drop HEADER_SIZE
    if HEADER_SIZE + csize ≠ input.length then Except.error ZPACK_ERROR_CORRUPTED
    else if output_capacity < usize then Except.error ZPACK_ERROR_BUFFER_TOO_SMALL
    else
      let outRes : Except Int (List Nat) :=
        if usize = 0 ∧ csize = 0 then Except.ok []
        else if method = ZPACK_METHOD_RLE then
          match rleDecode payload with
          | none => Except.error ZPACK_ERROR_CORRUPTED
          | some o =>
            if o.length = usize then Except.ok o
            else Except.error ZPACK_ERROR_CORRUPTED
        else if method = ZPACK_METHOD_RAW then
          match be.decompress payload usize with
          | none => Except.error ZPACK_ERROR_INVALID_DATA
          | some o =>
            if o.length = usize then Except.ok o
            else Except.error ZPACK_ERROR_CORRUPTED
        else Except.error ZPACK_ERROR_INVALID_DATA
      match outRes with
      | Except.error e => Except.error e
      | Except.ok o =>
        if checksum o ≠ ck then Except.error ZPACK_ERROR_CHECKSUM_MISMATCH
        else Except.ok o

/-! ## Basic lemmas about the embedded operations -/

theorem countRun_le_length (b : Nat) : ∀ l : List Nat, countRun b l ≤ l.length
  | [] => by simp [countRun]
  | c :: rest => by
    simp only [countRun, List.length_cons]
    split
    · have := countRun_le_length b rest
      omega
    · omega

/-- Splitting off `k ≤ countRun b l` leading copies of `b` reconstitutes `l`. -/
theorem replicate_append_drop (b : Nat) :
    ∀ (l : List Nat) (k : Nat), k ≤ countRun b l →
      List.replicate k b ++ l.drop k = l
  | _, 0, _ => by simp
  | [], k + 1, h => by simp [countRun] at h
  | c :: rest, k + 1, h => by
    simp only [countRun] at h
    by_cases hc : c = b
    · rw [if_pos hc] at h
      subst hc
      simpa [List.replicate_succ] using replicate_append_drop c rest k (by omega)
    · rw [if_neg hc] at h
      omega

theorem flushLit_length_le (lit : List Nat) :
    (flushLit lit).length ≤ lit.length + 1 := by
  simp only [flushLit]
  split <;> simp

theorem toLE_length : ∀ k n, (toLE k n).length = k
  | 0, _ => rfl
  | k + 1, n => by simp [toLE, toLE_length k]

theorem fromLE_toLE : ∀ k n, fromLE (toLE k n) = n % 256 ^ k
  | 0, n => by simp [toLE, fromLE, Nat.mod_one]
  | k + 1, n => by
    simp only [toLE, fromLE, fromLE_toLE k]
    rw [pow_succ', Nat.mod_mul]
    omega

theorem checksum_foldl_lt (data : List Nat) :
    ∀ a : Nat, a < 2 ^ 32 →
      data.foldl (fun a c => (a * 31 + c % 256 + 1) % 2 ^ 32) a < 2 ^ 32 := by
  induction data with
  | nil => intro a ha; simpa using ha
  | cons c rest ih =>
    intro a _
    simpa using ih ((a * 31 + c % 256 + 1) % 2 ^ 32) (Nat.mod_lt _ (by norm_num))

theorem checksum_lt (data : List Nat) : checksum data < 2 ^ 32 :=
  checksum_foldl_lt data 0 (by norm_num)

/-! ## RLE decoder: fuel irrelevance and single-token steps -/

theorem rleDecodeF_congr :
    ∀ (f₁ f₂ : Nat) (l : List Nat), l.length ≤ f₁ → l.length ≤ f₂ →
      rleDecodeF f₁ l = rleDecodeF f₂ l
  | f₁, f₂, [], _, _ => by cases f₁ <;> cases f₂ <;> rfl
  | 0, _, _ :: _, h₁, _ => by simp at h₁
  | _ + 1, 0, _ :: _, _, h₂ => by simp at h₂
  | f₁ + 1, f₂ + 1, n :: rest, h₁, h₂ => by
    simp only [List.length_cons] at h₁ h₂
    simp only [rleDecodeF]
    by_cases h128 : 128 ≤ n
    · rw [if_pos h128, if_pos h128]
      cases rest with
      | nil => rfl
      | cons v rest2 =>
        simp only [List.length_cons] at h₁ h₂
        simp only [rleDecodeF_congr f₁ f₂ rest2 (by omega) (by omega)]
    · rw [if_neg h128, if_neg h128]
      by_cases h0 : n = 0
      · rw [if_pos h0, if_pos h0]
      · rw [if_neg h0, if_neg h0]
        by_cases hle : n ≤ rest.length
        · rw [if_pos hle, if_pos hle,
            rleDecodeF_congr f₁ f₂ (rest.drop n)
              (by rw [List.length_drop]; omega) (by rw [List.length_drop]; omega)]
        · rw [if_neg hle, if_neg hle]

theorem rleDecodeF_eq_decode (f : Nat) (l : List Nat) (h : l.length ≤ f) :
    rleDecodeF f l = rleDecode l :=
  rleDecodeF_congr f l.length l h le_rfl

/-- Decoding a literal token: a count byte in 1–127 followed by at least that
many bytes yields those bytes verbatim. -/
theorem rleDecodeF_literal_step (f n : Nat) (rest : List Nat)
    (h1 : 1 ≤ n) (h127 : n ≤ 127) (hle : n ≤ rest.length) :
    rleDecodeF (f + 1) (n :: rest) =
      (rleDecodeF f (rest.drop n)).map (fun t => rest.take n ++ t) := by
  simp only [rleDecodeF]
  rw [if_neg (by omega), if_neg (by omega), if_pos hle]

/-- Decoding a repeat token: a count byte with the high bit set followed by
the run byte emits the byte `count - 127` times. -/
theorem rleDecodeF_repeat_step (f n v : Nat) (rest2 : List Nat) (h : 128 ≤ n) :
    rleDecodeF (f + 1) (n :: v :: rest2) =
      (rleDecodeF f rest2).map (fun t => List.replicate (n - 127) v ++ t) := by
  simp only [rleDecodeF]
  rw [if_pos h]

/-- Decoding a flushed literal accumulator followed by more tokens decodes the
literals and continues. -/
theorem rleDecode_flush_append (lit X : List Nat) (h : lit.length ≤ 127) :
    rleDecode (flushLit lit ++ X) = (rleDecode X).map (fun t => lit ++ t) := by
  by_cases hl : lit = []
  · subst hl
    simp [flushLit]
  · have hlen : 1 ≤ lit.length := by
      cases lit with
      | nil => exact absurd rfl hl
      | cons c t => simp
    have hshape : flushLit lit ++ X = lit.length :: (lit ++ X) := by
      simp [flushLit, hl]
    rw [hshape]
    have hfuel : rleDecode (lit.length :: (lit ++ X)) =
        rleDecodeF ((lit ++ X).length + 1) (lit.length :: (lit ++ X)) := by
      unfold rleDecode
      rw [List.length_cons]
    rw [hfuel, rleDecodeF_literal_step _ _ _ hlen h (by simp),
      List.take_left, List.drop_left,
      rleDecodeF_eq_decode _ X (by simp)]

/-- Decoding a repeat token at the head of the stream. -/
theorem rleDecode_repeat_cons (r b : Nat) (X : List Nat)
    (h1 : 1 ≤ r) (h128 : r ≤ 128) :
    rleDecode ((127 + r) :: b :: X) =
      (rleDecode X).map (fun t => List.replicate r b ++ t) := by
  have hfuel : rleDecode ((127 + r) :: b :: X) =
      rleDecodeF (X.length + 1 + 1) ((127 + r) :: b :: X) := by
    unfold rleDecode
    rw [List.length_cons, List.length_cons]
  have hr : 127 + r - 127 = r := by omega
  rw [hfuel, rleDecodeF_repeat_step _ _ _ _ (by omega),
    rleDecodeF_eq_decode _ X (by omega), hr]

/-! ## RLE round-trip -/

/-- Decoding the encoder's output restores the pending literals followed by
the remaining input (the greedy encoder loop is inverted by the decoder). -/
theorem rleAux_roundtrip :
    ∀ (fuel : Nat) (lit l : List Nat), l.length ≤ fuel → lit.length ≤ 126 →
      rleDecode (rleAux fuel lit l) = some (lit ++ l)
  | fuel, lit, [], _, h126 => by
    have hflush : rleAux fuel lit [] = flushLit lit := by
      cases fuel <;> rfl
    have happ : flushLit lit = flushLit lit ++ [] := by simp
    rw [hflush, happ, rleDecode_flush_append lit [] (by omega)]
    simp [rleDecode, rleDecodeF]
  | 0, _, b :: rest, h, _ => by simp at h
  | fuel + 1, lit, b :: rest, h, h126 => by
    simp only [List.length_cons] at h
    simp only [rleAux]
    by_cases h3 : 3 ≤ min (countRun b rest + 1) 128
    · rw [if_pos h3]
      have hmin1 : min (countRun b rest + 1) 128 ≤ countRun b rest + 1 :=
        min_le_left _ _
      have hmin2 : min (countRun b rest + 1) 128 ≤ 128 := min_le_right _ _
      rw [rleDecode_flush_append _ _ (by omega),
        rleDecode_repeat_cons _ _ _ (by omega) hmin2,
        rleAux_roundtrip fuel [] (rest.drop (min (countRun b rest + 1) 128 - 1))
          (by rw [List.length_drop]; omega) (by simp)]
      simp only [Option.map_some', List.nil_append]
      have hrec := replicate_append_drop b rest
        (min (countRun b rest + 1) 128 - 1) (by omega)
      have hrepl : List.replicate (min (countRun b rest + 1) 128) b =
          b :: List.replicate (min (countRun b rest + 1) 128 - 1) b := by
        rw [show min (countRun b rest + 1) 128 =
            (min (countRun b rest + 1) 128 - 1) + 1 from by omega]
        rfl
      rw [hrepl]
      simp only [List.cons_append, List.append_assoc] at hrec ⊢
      rw [hrec]
    · rw [if_neg h3]
      by_cases h126' : 126 ≤ lit.length
      · rw [if_pos h126',
          rleDecode_flush_append _ _ (by simp; omega),
          rleAux_roundtrip fuel [] rest (by omega) (by simp)]
        simp
      · rw [if_neg h126',
          rleAux_roundtrip fuel (lit ++ [b]) rest (by omega)
            (by simp; omega)]
        simp

/-- Round-trip of the RLE codec on whole buffers. -/
theorem rleDecode_rleEncode (b : List Nat) : rleDecode (rleEncode b) = some b := by
  simpa using rleAux_roundtrip b.length [] b le_rfl (by simp)

/-! ## RLE worst-case output length -/

/-- Output-size bound for the encoder loop: at most one extra byte per 127
input bytes, plus one trailing count byte. -/
theorem rleAux_length_le :
    ∀ (fuel : Nat) (lit l : List Nat), l.length ≤ fuel → lit.length ≤ 126 →
      (rleAux fuel lit l).length ≤
        lit.length + l.length + (lit.length + l.length + 126) / 127 + 1
  | fuel, lit, [], _, _ => by
    have hflush : rleAux fuel lit [] = flushLit lit := by
      cases fuel <;> rfl
    have := flushLit_length_le lit
    rw [hflush]
    omega
  | 0, _, b :: rest, h, _ => by simp at h
  | fuel + 1, lit, b :: rest, h, h126 => by
    simp only [List.length_cons] at h
    simp only [rleAux]
    by_cases h3 : 3 ≤ min (countRun b rest + 1) 128
    · rw [if_pos h3]
      have hmin1 : min (countRun b rest + 1) 128 ≤ countRun b rest + 1 :=
        min_le_left _ _
      have hcr := countRun_le_length b rest
      have hrec := rleAux_length_le fuel []
        (rest.drop (min (countRun b rest + 1) 128 - 1))
        (by rw [List.length_drop]; omega) (by simp)
      have hfl := flushLit_length_le lit
      simp only [List.length_nil, List.length_drop, List.nil_append,
        List.length_append, List.length_cons] at hrec ⊢
      omega
    · rw [if_neg h3]
      by_cases h126' : 126 ≤ lit.length
      · rw [if_pos h126']
        have hrec := rleAux_length_le fuel [] rest (by omega) (by simp)
        have hfl := flushLit_length_le (lit ++ [b])
        simp only [List.length_nil, List.length_append, List.length_cons,
          List.length_nil] at hrec hfl ⊢
        omega
      · rw [if_neg h126']
        have hrec := rleAux_length_le fuel (lit ++ [b]) rest (by omega)
          (by simp; omega)
        simp only [List.length_append, List.length_cons, List.length_nil]
          at hrec ⊢
        omega

/-- Sharp worst-case bound for whole-buffer encoding. -/
theorem rleEncode_length_sharp (b : List Nat) :
    (rleEncode b).length ≤ b.length + (b.length + 126) / 127 + 1 := by
  have := rleAux_length_le b.length [] b le_rfl (by simp)
  simpa using this

/-- The RLE encoder's output always fits in the bound-estimator formula, with
room for the container header. -/
theorem rleEncode_length_le (b : List Nat) :
    HEADER_SIZE + (rleEncode b).length ≤ b.length + b.length / 8 + 256 := by
  have h := rleEncode_length_sharp b
  have : (b.length + 126) / 127 ≤ b.length / 8 + 1 := by omega
  simp only [HEADER_SIZE]
  omega

/-! ## Container header parsing -/

theorem mkHeaderV_length (vmaj vmin method level usize csize ck : Nat) :
    (mkHeaderV vmaj vmin method level usize csize ck).length = HEADER_SIZE := by
  simp [mkHeaderV, ZPACK_MAGIC, HEADER_SIZE, toLE_length]

/-- Every field of a serialized header can be read back from the byte stream
at its fixed offset, and the payload follows at offset 28. -/
theorem parse_mkHeaderV (vmaj vmin method level usize csize ck : Nat)
    (p : List Nat) :
    (mkHeaderV vmaj vmin method level usize csize ck ++ p).length =
        HEADER_SIZE + p.length
    ∧ (mkHeaderV vmaj vmin method level usize csize ck ++ p).take 4 = ZPACK_MAGIC
    ∧ (mkHeaderV vmaj vmin method level usize csize ck ++ p).getD 4 0 = vmaj % 256
    ∧ (mkHeaderV vmaj vmin method level usize csize ck ++ p).getD 6 0 = method % 256
    ∧ ((mkHeaderV vmaj vmin method level usize csize ck ++ p).drop 8).take 8 =
        toLE 8 usize
    ∧ ((mkHeaderV vmaj vmin method level usize csize ck ++ p).drop 16).take 8 =
        toLE 8 csize
    ∧ ((mkHeaderV vmaj vmin method level usize csize ck ++ p).drop 24).take 4 =
        toLE 4 ck
    ∧ (mkHeaderV vmaj vmin method level usize csize ck ++ p).drop HEADER_SIZE = p := by
  refine ⟨?_, rfl, rfl, rfl, rfl, rfl, rfl, rfl⟩
  rw [List.length_append, mkHeaderV_length]

/-! ## Decoding well-formed containers -/

theorem decode_container_rle (be : Backend) (b payload : List Nat)
    (level cap : Nat)
    (hb : b.length < 2 ^ 64) (hp : payload.length < 2 ^ 64)
    (hcap : b.length ≤ cap)
    (hdec : rleDecode payload = some b) :
    zpack_decompress_file be
      (mkHeader ZPACK_METHOD_RLE level b.length payload.length (checksum b)
        ++ payload) cap = Except.ok b := by
  obtain ⟨hlen, hmagic, hmaj, hmeth, husz, hcsz, hck, hpay⟩ :=
    parse_mkHeaderV ZPACK_VERSION_MAJOR ZPACK_VERSION_MINOR ZPACK_METHOD_RLE
      level b.length payload.length (checksum b) payload
  have e64 : (256 : Nat) ^ 8 = 2 ^ 64 := by norm_num
  have e32 : (256 : Nat) ^ 4 = 2 ^ 32 := by norm_num
  have husz' : fromLE (((mkHeaderV ZPACK_VERSION_MAJOR ZPACK_VERSION_MINOR
      ZPACK_METHOD_RLE level b.length payload.length (checksum b) ++
        payload).drop 8).take 8) = b.length := by
    rw [husz, fromLE_toLE, e64, Nat.mod_eq_of_lt hb]
  have hcsz' : fromLE (((mkHeaderV ZPACK_VERSION_MAJOR ZPACK_VERSION_MINOR
      ZPACK_METHOD_RLE level b.length payload.length (checksum b) ++
        payload).drop 16).take 8) = payload.length := by
    rw [hcsz, fromLE_toLE, e64, Nat.mod_eq_of_lt hp]
  have hck' : fromLE (((mkHeaderV ZPACK_VERSION_MAJOR ZPACK_VERSION_MINOR
      ZPACK_METHOD_RLE level b.length payload.length (checksum b) ++
        payload).drop 24).take 4) = checksum b := by
    rw [hck, fromLE_toLE, e32, Nat.mod_eq_of_lt (checksum_lt b)]
  simp only [mkHeader]
  unfold zpack_decompress_file
  rw [if_neg (by rw [hlen]; simp [HEADER_SIZE])]
  rw [if_neg (by rw [hmagic]; simp)]
  rw [if_neg (by rw [hmaj]; simp [ZPACK_VERSION_MAJOR])]
  rw [husz', hcsz', hck', hmeth, hpay, hlen]
  rw [if_neg (by simp)]
  rw [if_neg (by omega)]
  by_cases hz : b.length = 0 ∧ payload.length = 0
  · rw [if_pos hz]
    have hb0 : b = [] := List.length_eq_zero.mp hz.1
    subst hb0
    simp
  · rw [if_neg hz, if_pos (by norm_num [ZPACK_METHOD_RLE]), hdec]
    simp

theorem decode_container_raw (be : Backend) (b payload : List Nat)
    (level cap : Nat)
    (hb : b.length < 2 ^ 64) (hp : payload.length < 2 ^ 64)
    (hcap : b.length ≤ cap) (hb0 : b ≠ [])
    (hdec : be.decompress payload b.length = some b) :
    zpack_decompress_file be
      (mkHeader ZPACK_METHOD_RAW level b.length payload.length (checksum b)
        ++ payload) cap = Except.ok b := by
  obtain ⟨hlen, hmagic, hmaj, hmeth, husz, hcsz, hck, hpay⟩ :=
    parse_mkHeaderV ZPACK_VERSION_MAJOR ZPACK_VERSION_MINOR ZPACK_METHOD_RAW
      level b.length payload.length (checksum b) payload
  have e64 : (256 : Nat) ^ 8 = 2 ^ 64 := by norm_num
  have e32 : (256 : Nat) ^ 4 = 2 ^ 32 := by norm_num
  have husz' : fromLE (((mkHeaderV ZPACK_VERSION_MAJOR ZPACK_VERSION_MINOR
      ZPACK_METHOD_RAW level b.length payload.length (checksum b) ++
        payload).drop 8).take 8) = b.length := by
    rw [husz, fromLE_toLE, e64, Nat.mod_eq_of_lt hb]
  have hcsz' : fromLE (((mkHeaderV ZPACK_VERSION_MAJOR ZPACK_VERSION_MINOR
      ZPACK_METHOD_RAW level b.length payload.length (checksum b) ++
        payload).drop 16).take 8) = payload.length := by
    rw [hcsz, fromLE_toLE, e64, Nat.mod_eq_of_lt hp]
  have hck' : fromLE (((mkHeaderV ZPACK_VERSION_MAJOR ZPACK_VERSION_MINOR
      ZPACK_METHOD_RAW level b.length payload.length (checksum b) ++
        payload).drop 24).take 4) = checksum b := by
    rw [hck, fromLE_toLE, e32, Nat.mod_eq_of_lt (checksum_lt b)]
  have hbl : b.length ≠ 0 := by
    cases b with
    | nil => exact absurd rfl hb0
    | cons c t => simp
  simp only [mkHeader]
  unfold zpack_decompress_file
  rw [if_neg (by rw [hlen]; simp [HEADER_SIZE])]
  rw [if_neg (by rw [hmagic]; simp)]
  rw [if_neg (by rw [hmaj]; simp [ZPACK_VERSION_MAJOR])]
  rw [husz', hcsz', hck', hmeth, hpay, hlen]
  rw [if_neg (by simp)]
  rw [if_neg (by omega)]
  rw [if_neg (by intro hz; exact hbl hz.1)]
  rw [if_neg (by norm_num [ZPACK_METHOD_RAW, ZPACK_METHOD_RLE])]
  rw [if_pos (by norm_num [ZPACK_METHOD_RAW]), hdec]
  simp

/-- Decoding an empty-payload, empty-content container yields the empty
buffer at any method tag below 256. -/
theorem decode_container_empty (be : Backend) (method level cap : Nat) :
    zpack_decompress_file be
      (mkHeader method level 0 0 (checksum []) ++ []) cap = Except.ok [] := by
  obtain ⟨hlen, hmagic, hmaj, hmeth, husz, hcsz, hck, hpay⟩ :=
    parse_mkHeaderV ZPACK_VERSION_MAJOR ZPACK_VERSION_MINOR method
      level 0 0 (checksum []) []
  have husz' : fromLE (((mkHeaderV ZPACK_VERSION_MAJOR ZPACK_VERSION_MINOR
      method level 0 0 (checksum []) ++ []).drop 8).take 8) = 0 := by
    rw [husz, fromLE_toLE]
    simp
  have hcsz' : fromLE (((mkHeaderV ZPACK_VERSION_MAJOR ZPACK_VERSION_MINOR
      method level 0 0 (checksum []) ++ []).drop 16).take 8) = 0 := by
    rw [hcsz, fromLE_toLE]
    simp
  have e32 : (256 : Nat) ^ 4 = 2 ^ 32 := by norm_num
  have hck' : fromLE (((mkHeaderV ZPACK_VERSION_MAJOR ZPACK_VERSION_MINOR
      method level 0 0 (checksum []) ++ []).drop 24).take 4) = checksum [] := by
    rw [hck, fromLE_toLE, e32, Nat.mod_eq_of_lt (checksum_lt [])]
  simp only [mkHeader]
  unfold zpack_decompress_file
  rw [if_neg (by rw [hlen]; simp [HEADER_SIZE])]
  rw [if_neg (by rw [hmagic]; simp)]
  rw [if_neg (by rw [hmaj]; simp [ZPACK_VERSION_MAJOR])]
  rw [husz', hcsz', hck', hlen]
  rw [if_neg (by simp)]
  rw [if_neg (by omega)]
  rw [if_pos (⟨rfl, rfl⟩ : (0:Nat) = 0 ∧ (0:Nat) = 0)]
  simp

/-! ## Evaluating and inverting the container compressor -/

theorem compress_file_rle_eq (be : Backend) (b : List Nat) (cap : Nat)
    (hb0 : b ≠ []) (hcap : HEADER_SIZE + (rleEncode b).length ≤ cap) :
    zpack_compress_file be b cap ZPACK_LEVEL_FAST =
      Except.ok (mkHeader ZPACK_METHOD_RLE ZPACK_LEVEL_FAST b.length
        (rleEncode b).length (checksum b) ++ rleEncode b) := by
  have hc : ¬ (cap < HEADER_SIZE + (rleEncode b).length) := by omega
  simp [zpack_compress_file, hb0, hc, methodForLevel, ZPACK_LEVEL_FAST]

theorem compress_file_raw_eq (be : Backend) (b : List Nat) (cap level : Nat)
    (hlvl : level = ZPACK_LEVEL_BALANCED ∨ level = ZPACK_LEVEL_BEST)
    (hb0 : b ≠ []) (c : List Nat) (hbc : be.compress b level = some c)
    (hcap : HEADER_SIZE + c.length ≤ cap) :
    zpack_compress_file be b cap level =
      Except.ok (mkHeader ZPACK_METHOD_RAW level b.length c.length
        (checksum b) ++ c) := by
  have hc : ¬ (cap < HEADER_SIZE + c.length) := by omega
  rcases hlvl with h | h
  · subst h
    simp only [ZPACK_LEVEL_BALANCED] at hbc
    simp [zpack_compress_file, hb0, hc, hbc, methodForLevel,
      ZPACK_LEVEL_FAST, ZPACK_LEVEL_BALANCED, ZPACK_LEVEL_BEST]
  · subst h
    simp only [ZPACK_LEVEL_BEST] at hbc
    simp [zpack_compress_file, hb0, hc, hbc, methodForLevel,
      ZPACK_LEVEL_FAST, ZPACK_LEVEL_BALANCED, ZPACK_LEVEL_BEST]

theorem compress_file_empty_eq (be : Backend) (cap level : Nat)
    (hlvl : level = ZPACK_LEVEL_FAST ∨ level = ZPACK_LEVEL_BALANCED ∨
      level = ZPACK_LEVEL_BEST)
    (hcap : HEADER_SIZE ≤ cap) :
    zpack_compress_file be [] cap level =
      Except.ok (mkHeader (methodForLevel level) level 0 0 (checksum [])) := by
  have hc : ¬ (cap < HEADER_SIZE + 0) := by omega
  rcases hlvl with h | h | h <;> subst h <;>
    simp [zpack_compress_file, hc, methodForLevel,
      ZPACK_LEVEL_FAST, ZPACK_LEVEL_BALANCED, ZPACK_LEVEL_BEST] <;>
    omega

/-- Every successful `zpack_compress_file` output is a serialized header (for
the level's method, the input length and the input's checksum) followed by a
payload that fits the caller's capacity and is the empty payload, the RLE
encoding, or a backend result. -/
theorem compress_file_ok_inv (be : Backend) (b : List Nat) (cap level : Nat)
    (C : List Nat) (h : zpack_compress_file be b cap level = Except.ok C) :
    ∃ payload,
      C = mkHeader (methodForLevel level) level b.length payload.length
            (checksum b) ++ payload
      ∧ HEADER_SIZE + payload.length ≤ cap
      ∧ ((b = [] ∧ payload = [])
        ∨ payload = rleEncode b
        ∨ be.compress b level = some payload) := by
  unfold zpack_compress_file at h
  split at h
  · simp at h
  · split at h
    · next hb =>
      dsimp only at h
      split at h
      · simp at h
      · next hcap =>
        simp only [Except.ok.injEq] at h
        subst h
        exact ⟨[], rfl, by simp only [List.length_nil] at hcap ⊢; omega,
          Or.inl ⟨hb, rfl⟩⟩
    · next hb hl =>
      split at h
      · next hfast =>
        dsimp only at h
        split at h
        · simp at h
        · next hcap =>
          simp only [Except.ok.injEq] at h
          subst h
          exact ⟨rleEncode b, rfl, by omega, Or.inr (Or.inl rfl)⟩
      · next hfast =>
        split at h
        · dsimp only at h
          simp at h
        · next c heqc =>
          dsimp only at h
          split at h
          · simp at h
          · next hcap =>
            simp only [Except.ok.injEq] at h
            subst h
            exact ⟨c, rfl, by omega, Or.inr (Or.inr heqc)⟩

/-! ## Rejection lemmas: bad magic, bad version, truncation -/

theorem decode_short_input (be : Backend) (input : List Nat) (cap : Nat)
    (h : input.length < HEADER_SIZE) :
    zpack_decompress_file be input cap = Except.error ZPACK_ERROR_INVALID_DATA := by
  unfold zpack_decompress_file
  rw [if_pos h]

theorem decode_bad_magic (be : Backend) (input : List Nat) (cap : Nat)
    (h : input.take 4 ≠ ZPACK_MAGIC) :
    zpack_decompress_file be input cap = Except.error ZPACK_ERROR_INVALID_DATA := by
  unfold zpack_decompress_file
  by_cases hlen : input.length < HEADER_SIZE
  · rw [if_pos hlen]
  · rw [if_neg hlen, if_pos h]

theorem decode_bad_version (be : Backend)
    (vmaj vmin method level usize csize ck : Nat) (p : List Nat) (cap : Nat)
    (hv : vmaj % 256 ≠ ZPACK_VERSION_MAJOR) :
    zpack_decompress_file be
      (mkHeaderV vmaj vmin method level usize csize ck ++ p) cap =
      Except.error ZPACK_ERROR_UNSUPPORTED_VERSION := by
  obtain ⟨hlen, hmagic, hmaj, -, -, -, -, -⟩ :=
    parse_mkHeaderV vmaj vmin method level usize csize ck p
  unfold zpack_decompress_file
  rw [if_neg (by rw [hlen]; simp [HEADER_SIZE])]
  rw [if_neg (by rw [hmagic]; simp)]
  rw [if_pos (by rw [hmaj]; exact hv)]

/-- Truncating only payload bytes from a serialized container is caught by
the length-consistency check. -/
theorem decode_truncated_payload (be : Backend)
    (method level usize ck : Nat) (p : List Nat) (cap j : Nat)
    (hj1 : 1 ≤ j) (hj2 : j ≤ p.length) (hp : p.length < 2 ^ 64) :
    zpack_decompress_file be
      ((mkHeader method level usize p.length ck ++ p).take
        (HEADER_SIZE + p.length - j)) cap =
      Except.error ZPACK_ERROR_CORRUPTED := by
  have hsplit : HEADER_SIZE + p.length - j =
      (mkHeaderV ZPACK_VERSION_MAJOR ZPACK_VERSION_MINOR method level usize
        p.length ck).length + (p.length - j) := by
    rw [mkHeaderV_length]
    omega
  simp only [mkHeader]
  rw [hsplit, List.take_append]
  obtain ⟨hlen, hmagic, hmaj, hmeth, husz, hcsz, hck, hpay⟩ :=
    parse_mkHeaderV ZPACK_VERSION_MAJOR ZPACK_VERSION_MINOR method level usize
      p.length ck (p.take (p.length - j))
  have e64 : (256 : Nat) ^ 8 = 2 ^ 64 := by norm_num
  have hcsz' : fromLE (((mkHeaderV ZPACK_VERSION_MAJOR ZPACK_VERSION_MINOR
      method level usize p.length ck ++ p.take (p.length - j)).drop 16).take 8) =
      p.length := by
    rw [hcsz, fromLE_toLE, e64, Nat.mod_eq_of_lt hp]
  unfold zpack_decompress_file
  rw [if_neg (by rw [hlen]; simp [HEADER_SIZE])]
  rw [if_neg (by rw [hmagic]; simp)]
  rw [if_neg (by rw [hmaj]; simp [ZPACK_VERSION_MAJOR])]
  rw [hcsz', hlen]
  rw [if_pos (by rw [List.length_take]; omega)]

/-! ## Bound estimator arithmetic -/

/-- Below the `size_t` overflow threshold the bound macro is the plain
arithmetic formula. -/
theorem compress_bound_eq_of_no_overflow (n : Nat)
    (h : n + n / 8 + 256 < 2 ^ 64) :
    zpack_compress_bound n = n + n / 8 + 256 := by
  simp only [zpack_compress_bound, ZPACK_COMPRESS_BOUND, SIZE_T_MOD]
  omega

/-! ## Claim theorems -/

/-- C3: for every `input_size`, `zpack_compress_bound input_size` equals
`input_size + input_size / 8 + C` for the fixed header-overhead constant
`C = 256` (whenever the formula does not overflow `size_t`), and the function
agrees with the header's `ZPACK_COMPRESS_BOUND` macro; as a total Lean
function it never fails and never allocates. -/
theorem c3_bound_formula (input_size : Nat) :
    (input_size + input_size / 8 + 256 < SIZE_T_MOD →
      zpack_compress_bound input_size = input_size + input_size / 8 + 256)
    ∧ zpack_compress_bound input_size = ZPACK_COMPRESS_BOUND input_size := by
  constructor
  · intro h
    exact compress_bound_eq_of_no_overflow input_size (by simpa [SIZE_T_MOD] using h)
  · rfl

/-- C3 witness: the formula instantiated at `input_size = 1000`. -/
theorem c3_bound_formula_witness :
    (1000 + 1000 / 8 + 256 < SIZE_T_MOD) ∧ zpack_compress_bound 1000 = 1381 :=
  ⟨by decide, (c3_bound_formula 1000).1 (by decide)⟩

/-- C4: a buffer whose first four bytes differ from the magic sentinel is
rejected with `ZPACK_ERROR_INVALID_DATA`, and a container whose stored major
version differs from (hence, being a byte, exceeds) the decoder's major
version 0 is rejected with `ZPACK_ERROR_UNSUPPORTED_VERSION`; both paths
return an error, never success with wrong output. -/
theorem c4_header_rejection :
    (∀ (be : Backend) (input : List Nat) (cap : Nat),
      input.take 4 ≠ ZPACK_MAGIC →
      zpack_decompress_file be input cap = Except.error ZPACK_ERROR_INVALID_DATA)
    ∧ (∀ (be : Backend) (vmaj vmin method level usize csize ck : Nat)
        (p : List Nat) (cap : Nat), vmaj % 256 ≠ ZPACK_VERSION_MAJOR →
      zpack_decompress_file be
        (mkHeaderV vmaj vmin method level usize csize ck ++ p) cap =
        Except.error ZPACK_ERROR_UNSUPPORTED_VERSION) :=
  ⟨decode_bad_magic, decode_bad_version⟩

/-- C4 witness: a wrong-magic buffer and a version-2 container, both at
concrete inputs. -/
theorem c4_header_rejection_witness :
    (([9, 9, 9, 9, 0, 0] : List Nat).take 4 ≠ ZPACK_MAGIC ∧
      zpack_decompress_file idBackend [9, 9, 9, 9, 0, 0] 10 =
        Except.error ZPACK_ERROR_INVALID_DATA)
    ∧ ((2 : Nat) % 256 ≠ ZPACK_VERSION_MAJOR ∧
      zpack_decompress_file idBackend (mkHeaderV 2 0 1 1 0 0 0 ++ []) 10 =
        Except.error ZPACK_ERROR_UNSUPPORTED_VERSION) :=
  ⟨⟨by decide, c4_header_rejection.1 idBackend [9, 9, 9, 9, 0, 0] 10 (by decide)⟩,
    ⟨by decide, c4_header_rejection.2 idBackend 2 0 1 1 0 0 0 [] 10 (by decide)⟩⟩

/-- C6: every level outside FAST, BALANCED, BEST is rejected by
`zpack_compress_file` with `ZPACK_ERROR_INVALID_CONFIG`; the error result
carries no output bytes, modelling that nothing is written to the output
buffer. -/
theorem c6_invalid_level (be : Backend) (b : List Nat) (cap level : Nat)
    (h : ¬ (level = ZPACK_LEVEL_FAST ∨ level = ZPACK_LEVEL_BALANCED ∨
      level = ZPACK_LEVEL_BEST)) :
    zpack_compress_file be b cap level = Except.error ZPACK_ERROR_INVALID_CONFIG := by
  unfold zpack_compress_file
  rw [if_pos h]

/-- C6 witness: level 0 at a concrete input. -/
theorem c6_invalid_level_witness :
    ¬ ((0 : Nat) = ZPACK_LEVEL_FAST ∨ (0 : Nat) = ZPACK_LEVEL_BALANCED ∨
      (0 : Nat) = ZPACK_LEVEL_BEST)
    ∧ zpack_compress_file idBackend [1, 2] 100 0 =
        Except.error ZPACK_ERROR_INVALID_CONFIG :=
  ⟨by decide, c6_invalid_level idBackend [1, 2] 100 0 (by decide)⟩

/-- C9: `ZPACK_OK` is 0; the seven failure kinds map, in order, to the
pairwise-distinct codes -1 through -7; and the pure error-string function
returns a non-default, nonempty description for each of the eight codes. -/
theorem c9_error_taxonomy :
    ZPACK_OK = 0
    ∧ [ZPACK_ERROR_MEMORY, ZPACK_ERROR_INVALID_DATA, ZPACK_ERROR_CORRUPTED,
        ZPACK_ERROR_BUFFER_TOO_SMALL, ZPACK_ERROR_INVALID_CONFIG,
        ZPACK_ERROR_UNSUPPORTED_VERSION, ZPACK_ERROR_CHECKSUM_MISMATCH] =
        [-1, -2, -3, -4, -5, -6, -7]
    ∧ List.Pairwise (fun a b => a ≠ b)
        [ZPACK_OK, ZPACK_ERROR_MEMORY, ZPACK_ERROR_INVALID_DATA,
          ZPACK_ERROR_CORRUPTED, ZPACK_ERROR_BUFFER_TOO_SMALL,
          ZPACK_ERROR_INVALID_CONFIG, ZPACK_ERROR_UNSUPPORTED_VERSION,
          ZPACK_ERROR_CHECKSUM_MISMATCH]
    ∧ (∀ c ∈ [ZPACK_OK, ZPACK_ERROR_MEMORY, ZPACK_ERROR_INVALID_DATA,
          ZPACK_ERROR_CORRUPTED, ZPACK_ERROR_BUFFER_TOO_SMALL,
          ZPACK_ERROR_INVALID_CONFIG, ZPACK_ERROR_UNSUPPORTED_VERSION,
          ZPACK_ERROR_CHECKSUM_MISMATCH],
        zpack_get_error_string c ≠ "Unknown error"
        ∧ (zpack_get_error_string c).length > 0) := by
  refine ⟨rfl, rfl, ?_, ?_⟩ <;> decide

/-- C10: the bound macro is evaluated modulo `2 ^ 64`; at `SIZE_MAX` the
returned bound is smaller than the input size, and for representable sizes
the bound exceeds the input size exactly when the formula does not
overflow. -/
theorem c10_bound_overflow :
    (∀ n, zpack_compress_bound n = (n + n / 8 + 256) % 2 ^ 64)
    ∧ zpack_compress_bound (2 ^ 64 - 1) < 2 ^ 64 - 1
    ∧ (∀ n, n < 2 ^ 64 →
        (n < zpack_compress_bound n ↔ n + n / 8 + 256 < 2 ^ 64)) := by
  refine ⟨fun n => rfl, by decide, fun n hn => ?_⟩
  simp only [zpack_compress_bound, ZPACK_COMPRESS_BOUND, SIZE_T_MOD]
  omega

/-- C10 witness: at `n = 2 ^ 64 - 1` the formula overflows and the bound
does not exceed the input size. -/
theorem c10_bound_overflow_witness :
    (2 ^ 64 - 1 < 2 ^ 64)
    ∧ ¬ (2 ^ 64 - 1 + (2 ^ 64 - 1) / 8 + 256 < 2 ^ 64)
    ∧ ¬ (2 ^ 64 - 1 < zpack_compress_bound (2 ^ 64 - 1)) := by
  have h := c10_bound_overflow.2.2 (2 ^ 64 - 1) (by decide)
  exact ⟨by decide, by decide, fun hlt => absurd (h.mp hlt) (by decide)⟩

theorem mkHeader_length (method level usize csize ck : Nat) :
    (mkHeader method level usize csize ck).length = HEADER_SIZE :=
  mkHeaderV_length ZPACK_VERSION_MAJOR ZPACK_VERSION_MINOR method level usize
    csize ck

/-- C1: decoding the encoding of any byte sequence returns exactly that
sequence, for the RLE codec (`zpack_rle_decompress` after
`zpack_rle_compress`) and for the container format (`zpack_decompress_file`
after `zpack_compress_file`) at every level in FAST, BALANCED, BEST, with
output buffers sized per `zpack_compress_bound`; for the backend-routed
levels the external backend is assumed to invert itself on this input with
the spec's worst-case expansion. -/
theorem c1_roundtrip (be : Backend) (b : List Nat) (level : Nat)
    (hlvl : level = ZPACK_LEVEL_FAST ∨ level = ZPACK_LEVEL_BALANCED ∨
      level = ZPACK_LEVEL_BEST)
    (hb : b.length ≤ 2 ^ 60)
    (hbe : level ≠ ZPACK_LEVEL_FAST →
      ∃ c, be.compress b level = some c ∧ c.length ≤ b.length + b.length / 8 ∧
        be.decompress c b.length = some b) :
    (zpack_rle_compress b (zpack_compress_bound b.length) =
        Except.ok (rleEncode b)
      ∧ zpack_rle_decompress (rleEncode b) b.length = Except.ok b)
    ∧ ∃ C, zpack_compress_file be b (zpack_compress_bound b.length) level =
          Except.ok C
        ∧ zpack_decompress_file be C b.length = Except.ok b := by
  have hbound : zpack_compress_bound b.length =
      b.length + b.length / 8 + 256 :=
    compress_bound_eq_of_no_overflow _ (by omega)
  have hsharp := rleEncode_length_sharp b
  have hrlecap : HEADER_SIZE + (rleEncode b).length ≤
      zpack_compress_bound b.length := by
    have := rleEncode_length_le b
    omega
  refine ⟨⟨?_, ?_⟩, ?_⟩
  · unfold zpack_rle_compress
    rw [if_neg (by omega)]
  · unfold zpack_rle_decompress
    rw [rleDecode_rleEncode b]
    simp
  · by_cases hb0 : b = []
    · subst hb0
      refine ⟨mkHeader (methodForLevel level) level 0 0 (checksum []),
        compress_file_empty_eq be _ level hlvl (by omega), ?_⟩
      simpa using decode_container_empty be (methodForLevel level) level 0
    · rcases hlvl with h1 | h23
      · subst h1
        refine ⟨_, compress_file_rle_eq be b _ hb0 hrlecap, ?_⟩
        exact decode_container_rle be b (rleEncode b) ZPACK_LEVEL_FAST b.length
          (by omega) (by omega) le_rfl (rleDecode_rleEncode b)
      · obtain ⟨c, hbc, hcsz, hbd⟩ :=
          hbe (by rcases h23 with h | h <;> subst h <;> decide)
        refine ⟨_, compress_file_raw_eq be b _ level h23 hb0 c hbc
          (by simp only [HEADER_SIZE]; omega), ?_⟩
        exact decode_container_raw be b c level b.length (by omega) (by omega)
          le_rfl hb0 hbd

/-- C1 witness: round-trip of a concrete buffer through the RLE codec and
through the container format at level BALANCED over the identity backend. -/
theorem c1_roundtrip_witness :
    (([7, 7, 7, 7, 1, 2] : List Nat).length ≤ 2 ^ 60)
    ∧ ((zpack_rle_compress [7, 7, 7, 7, 1, 2]
          (zpack_compress_bound ([7, 7, 7, 7, 1, 2] : List Nat).length) =
          Except.ok (rleEncode [7, 7, 7, 7, 1, 2])
        ∧ zpack_rle_decompress (rleEncode [7, 7, 7, 7, 1, 2])
            ([7, 7, 7, 7, 1, 2] : List Nat).length =
            Except.ok [7, 7, 7, 7, 1, 2])
      ∧ ∃ C, zpack_compress_file idBackend [7, 7, 7, 7, 1, 2]
            (zpack_compress_bound ([7, 7, 7, 7, 1, 2] : List Nat).length)
            ZPACK_LEVEL_BALANCED = Except.ok C
          ∧ zpack_decompress_file idBackend C
              ([7, 7, 7, 7, 1, 2] : List Nat).length =
              Except.ok [7, 7, 7, 7, 1, 2]) :=
  ⟨by decide,
    c1_roundtrip idBackend [7, 7, 7, 7, 1, 2] ZPACK_LEVEL_BALANCED
      (Or.inr (Or.inl rfl)) (by decide)
      (fun _ => ⟨[7, 7, 7, 7, 1, 2], rfl, by decide, rfl⟩)⟩

/-- C2: for any input and supported level, the output lengths of
`zpack_rle_compress`, `zpack_compress` and `zpack_compress_file` never
exceed `zpack_compress_bound` of the input length (with the spec's
worst-case-expansion contract assumed of the external backend), so the bound
is a sound worst-case estimate including header overhead and RLE
expansion. -/
theorem c2_bound_sound (be : Backend) (b : List Nat) (cap level : Nat)
    (hb : b.length ≤ 2 ^ 60)
    (hexp : ∀ c, be.compress b level = some c →
      c.length ≤ b.length + b.length / 8) :
    (rleEncode b).length ≤ zpack_compress_bound b.length
    ∧ (∀ e, zpack_rle_compress b cap = Except.ok e →
        e.length ≤ zpack_compress_bound b.length)
    ∧ (∀ c, zpack_compress be b cap level = Except.ok c →
        c.length ≤ zpack_compress_bound b.length)
    ∧ (∀ C, zpack_compress_file be b cap level = Except.ok C →
        C.length ≤ zpack_compress_bound b.length) := by
  have hbound := compress_bound_eq_of_no_overflow b.length (by omega)
  have hrle := rleEncode_length_le b
  have h1 : (rleEncode b).length ≤ zpack_compress_bound b.length := by
    simp only [HEADER_SIZE] at hrle
    omega
  refine ⟨h1, ?_, ?_, ?_⟩
  · intro e he
    unfold zpack_rle_compress at he
    dsimp only at he
    split at he
    · simp at he
    · simp only [Except.ok.injEq] at he
      exact he ▸ h1
  · intro c hc
    unfold zpack_compress at hc
    split at hc
    · simp at hc
    · split at hc
      · simp at hc
      · next c2 heq2 =>
        split at hc
        · simp at hc
        · simp only [Except.ok.injEq] at hc
          subst hc
          have := hexp c2 heq2
          omega
  · intro C hC
    obtain ⟨payload, hCeq, hcapp, hdisj⟩ :=
      compress_file_ok_inv be b cap level C hC
    have hClen : C.length = HEADER_SIZE + payload.length := by
      rw [hCeq, List.length_append, mkHeader_length]
    simp only [HEADER_SIZE] at hClen hrle
    rcases hdisj with ⟨hb0, hp0⟩ | hp | hp
    · subst hp0
      simp only [List.length_nil] at hClen
      omega
    · subst hp
      omega
    · have := hexp payload hp
      omega

/-- C2 witness: the RLE output-length bound instantiated on a concrete
incompressible buffer, with the hypotheses discharged at the identity
backend. -/
theorem c2_bound_sound_witness :
    (([1, 2, 3, 4, 5, 6, 7, 8, 9] : List Nat).length ≤ 2 ^ 60)
    ∧ (∀ c, idBackend.compress [1, 2, 3, 4, 5, 6, 7, 8, 9]
          ZPACK_LEVEL_BALANCED = some c →
        c.length ≤ ([1, 2, 3, 4, 5, 6, 7, 8, 9] : List Nat).length +
          ([1, 2, 3, 4, 5, 6, 7, 8, 9] : List Nat).length / 8)
    ∧ (rleEncode [1, 2, 3, 4, 5, 6, 7, 8, 9]).length ≤
        zpack_compress_bound ([1, 2, 3, 4, 5, 6, 7, 8, 9] : List Nat).length :=
  ⟨by decide,
    fun c hc => by
      simp only [idBackend] at hc
      cases hc
      decide,
    (c2_bound_sound idBackend [1, 2, 3, 4, 5, 6, 7, 8, 9] 300
      ZPACK_LEVEL_BALANCED (by decide)
      (fun c hc => by
        simp only [idBackend] at hc
        cases hc
        decide)).1⟩

/-- C5 counterexample: the claim as stated fails when the truncation cuts
into the header.  The container of the empty input is 28 bytes of header with
an empty payload; removing its last byte (k = 1 ≥ 1) leaves 27 bytes, which
decode rejects with `ZPACK_ERROR_INVALID_DATA` (-2) — not with
`ZPACK_ERROR_CORRUPTED` (-3) or `ZPACK_ERROR_CHECKSUM_MISMATCH` (-7). -/
theorem c5_truncation_counterexample :
    zpack_compress_file idBackend [] HEADER_SIZE ZPACK_LEVEL_FAST =
      Except.ok (mkHeader ZPACK_METHOD_RLE ZPACK_LEVEL_FAST 0 0 (checksum []))
    ∧ 1 ≤ (mkHeader ZPACK_METHOD_RLE ZPACK_LEVEL_FAST 0 0 (checksum [])).length
    ∧ zpack_decompress_file idBackend
        ((mkHeader ZPACK_METHOD_RLE ZPACK_LEVEL_FAST 0 0 (checksum [])).take
          ((mkHeader ZPACK_METHOD_RLE ZPACK_LEVEL_FAST 0 0
            (checksum [])).length - 1)) HEADER_SIZE =
        Except.error ZPACK_ERROR_INVALID_DATA
    ∧ ZPACK_ERROR_INVALID_DATA ≠ ZPACK_ERROR_CORRUPTED
    ∧ ZPACK_ERROR_INVALID_DATA ≠ ZPACK_ERROR_CHECKSUM_MISMATCH := by decide

/-- C5 (amended): truncating a container produced by `zpack_compress_file`
by k ≥ 1 trailing bytes makes decoding fail — with
`ZPACK_ERROR_CORRUPTED` (-3), in particular within the claimed set
-3 or -7, when only payload bytes are removed, and with
`ZPACK_ERROR_INVALID_DATA` (-2) when the truncation reaches into the
header; it never succeeds with a truncated result. -/
theorem c5_truncation_amended (be : Backend) (b : List Nat)
    (cap cap2 level k : Nat) (C : List Nat)
    (hC : zpack_compress_file be b cap level = Except.ok C)
    (hb : b.length ≤ 2 ^ 60)
    (hbesz : ∀ c, be.compress b level = some c → c.length ≤ 2 ^ 60)
    (hk : 1 ≤ k) :
    (k + HEADER_SIZE ≤ C.length →
      zpack_decompress_file be (C.take (C.length - k)) cap2 =
        Except.error ZPACK_ERROR_CORRUPTED)
    ∧ (C.length < k + HEADER_SIZE →
      zpack_decompress_file be (C.take (C.length - k)) cap2 =
        Except.error ZPACK_ERROR_INVALID_DATA) := by
  obtain ⟨payload, hCeq, hcapp, hdisj⟩ :=
    compress_file_ok_inv be b cap level C hC
  have hplen : payload.length < 2 ^ 64 := by
    rcases hdisj with ⟨hb0, hp0⟩ | hp | hp
    · subst hp0
      simp
    · subst hp
      have := rleEncode_length_sharp b
      omega
    · have := hbesz payload hp
      omega
  have hClen : C.length = HEADER_SIZE + payload.length := by
    rw [hCeq, List.length_append, mkHeader_length]
  constructor
  · intro hk2
    have hkp : k ≤ payload.length := by omega
    have hEq : C.take (C.length - k) =
        (mkHeader (methodForLevel level) level b.length payload.length
          (checksum b) ++ payload).take (HEADER_SIZE + payload.length - k) := by
      rw [hCeq, List.length_append, mkHeader_length]
    rw [hEq]
    exact decode_truncated_payload be (methodForLevel level) level b.length
      (checksum b) payload cap2 k hk hkp hplen
  · intro hk2
    apply decode_short_input
    rw [List.length_take, min_eq_left (Nat.sub_le _ _)]
    simp only [HEADER_SIZE] at hClen hk2 ⊢
    omega

/-- C5 witness: a five-byte run compresses to a 30-byte container; removing
its last byte (payload truncation) is rejected with
`ZPACK_ERROR_CORRUPTED`. -/
theorem c5_truncation_amended_witness :
    zpack_compress_file idBackend (List.replicate 5 7) 300 ZPACK_LEVEL_FAST =
      Except.ok (mkHeader ZPACK_METHOD_RLE ZPACK_LEVEL_FAST 5 2
        (checksum (List.replicate 5 7)) ++ [132, 7])
    ∧ zpack_decompress_file idBackend
        ((mkHeader ZPACK_METHOD_RLE ZPACK_LEVEL_FAST 5 2
          (checksum (List.replicate 5 7)) ++ [132, 7]).take 29) 5 =
        Except.error ZPACK_ERROR_CORRUPTED := by
  have hC : zpack_compress_file idBackend (List.replicate 5 7) 300
      ZPACK_LEVEL_FAST =
      Except.ok (mkHeader ZPACK_METHOD_RLE ZPACK_LEVEL_FAST 5 2
        (checksum (List.replicate 5 7)) ++ [132, 7]) := by decide
  refine ⟨hC, ?_⟩
  exact (c5_truncation_amended idBackend (List.replicate 5 7) 300 5
      ZPACK_LEVEL_FAST 1 _ hC (by decide)
      (fun c hc => by
        simp only [idBackend] at hc
        cases hc
        decide)
      (by decide)).1 (by decide)

/-- C7: the empty input compresses successfully at every valid level into a
container whose header records uncompressed and compressed sizes of zero,
and decompressing that container yields the empty buffer. -/
theorem c7_empty_input (be : Backend) (cap cap2 level : Nat)
    (hlvl : level = ZPACK_LEVEL_FAST ∨ level = ZPACK_LEVEL_BALANCED ∨
      level = ZPACK_LEVEL_BEST)
    (hcap : HEADER_SIZE ≤ cap) :
    ∃ C, zpack_compress_file be [] cap level = Except.ok C
      ∧ C = mkHeader (methodForLevel level) level 0 0 (checksum [])
      ∧ fromLE ((C.drop 8).take 8) = 0
      ∧ fromLE ((C.drop 16).take 8) = 0
      ∧ zpack_decompress_file be C cap2 = Except.ok [] := by
  have h2 : mkHeader (methodForLevel level) level 0 0 (checksum []) =
      mkHeaderV ZPACK_VERSION_MAJOR ZPACK_VERSION_MINOR (methodForLevel level)
        level 0 0 (checksum []) ++ [] := by
    simp [mkHeader]
  obtain ⟨-, -, -, -, husz, hcsz, -, -⟩ :=
    parse_mkHeaderV ZPACK_VERSION_MAJOR ZPACK_VERSION_MINOR
      (methodForLevel level) level 0 0 (checksum []) []
  refine ⟨mkHeader (methodForLevel level) level 0 0 (checksum []),
    compress_file_empty_eq be cap level hlvl hcap, rfl, ?_, ?_, ?_⟩
  · rw [h2, husz, fromLE_toLE]
    simp
  · rw [h2, hcsz, fromLE_toLE]
    simp
  · simpa using decode_container_empty be (methodForLevel level) level cap2

/-- C7 witness: the empty input at level BALANCED over the identity
backend. -/
theorem c7_empty_input_witness :
    (ZPACK_LEVEL_BALANCED = ZPACK_LEVEL_FAST ∨
      ZPACK_LEVEL_BALANCED = ZPACK_LEVEL_BALANCED ∨
      ZPACK_LEVEL_BALANCED = ZPACK_LEVEL_BEST)
    ∧ HEADER_SIZE ≤ 28
    ∧ ∃ C, zpack_compress_file idBackend [] 28 ZPACK_LEVEL_BALANCED =
          Except.ok C
        ∧ C = mkHeader (methodForLevel ZPACK_LEVEL_BALANCED)
            ZPACK_LEVEL_BALANCED 0 0 (checksum [])
        ∧ fromLE ((C.drop 8).take 8) = 0
        ∧ fromLE ((C.drop 16).take 8) = 0
        ∧ zpack_decompress_file idBackend C 0 = Except.ok [] :=
  ⟨Or.inr (Or.inl rfl), by decide,
    c7_empty_input idBackend 28 0 ZPACK_LEVEL_BALANCED (Or.inr (Or.inl rfl))
      (by decide)⟩

set_option maxRecDepth 10000 in
/-- C8: 300 repetitions of byte 0x41 RLE-encode to exactly
2 * ceil(300/128) = 6 payload bytes (three repeat tokens), the container
produced by `zpack_compress_file` at level FAST is header_size + 6 bytes, and
decompressing it returns exactly 300 bytes of 0x41. -/
theorem c8_rle_scenario :
    (rleEncode (List.replicate 300 65)).length = 6
    ∧ 6 = 2 * ((300 + 127) / 128)
    ∧ zpack_compress_file idBackend (List.replicate 300 65)
        (zpack_compress_bound 300) ZPACK_LEVEL_FAST =
        Except.ok (mkHeader ZPACK_METHOD_RLE ZPACK_LEVEL_FAST 300 6
          (checksum (List.replicate 300 65)) ++ [255, 65, 255, 65, 171, 65])
    ∧ (mkHeader ZPACK_METHOD_RLE ZPACK_LEVEL_FAST 300 6
        (checksum (List.replicate 300 65)) ++ [255, 65, 255, 65, 171, 65]).length
        = HEADER_SIZE + 6
    ∧ zpack_decompress_file idBackend
        (mkHeader ZPACK_METHOD_RLE ZPACK_LEVEL_FAST 300 6
          (checksum (List.replicate 300 65)) ++ [255, 65, 255, 65, 171, 65]) 300
        = Except.ok (List.replicate 300 65) := by
  refine ⟨?_, ?_, ?_, ?_, ?_⟩ <;> decide

end Zpack
